import Mathlib

/-!
# Verification of pootles_utils against its specification

Shallow embedding of the core of the `pootle/pootles_utils` repository:
the `ptree` tree class, the `watchables` and `pvars` observable-variable
modules, and the `netinf` ifconfig-output parser.  Python dicts are
modelled as insertion-ordered association lists, Python exceptions as an
explicit error type, and mutation as explicit state passing: each
stateful operation returns the resulting state together with the list of
observer calls it performed and an `Except` value for the Python return
value or exception.
-/

namespace PootlesUtils

/-- Python exceptions that the modelled code can raise. -/
inductive PyErr where
  | valueError
  | keyError
  | indexError
  | attributeError
  | runtimeError
  | assertionError
  deriving DecidableEq

/-! ## Python dict model

A Python `dict` / `OrderedDict` is modelled as an association list in
insertion order with unique keys maintained by `dinsert` (assignment to
an existing key replaces the value and keeps the key's position, as in
Python; assignment to a fresh key appends). -/

/-- Insertion-ordered association list standing for a Python dict. -/
abbrev PyDict (α β : Type) := List (α × β)

/-- `d[k]` lookup returning `none` when the key is absent. -/
def dget? {α β : Type} [DecidableEq α] (d : PyDict α β) (k : α) : Option β :=
  match d with
  | [] => none
  | (k', v) :: rest => if k' = k then some v else dget? rest k

/-- `d[k] = v` assignment: replace in place if the key exists, else append. -/
def dinsert {α β : Type} [DecidableEq α] (d : PyDict α β) (k : α) (v : β) : PyDict α β :=
  match d with
  | [] => [(k, v)]
  | (k', v') :: rest => if k' = k then (k', v) :: rest else (k', v') :: dinsert rest k v

/-- `k in d` membership test. -/
def dmem {α β : Type} [DecidableEq α] (d : PyDict α β) (k : α) : Bool :=
  (dget? d k).isSome

/-- `list(d.keys())` in insertion order. -/
def dkeys {α β : Type} (d : PyDict α β) : List α := d.map Prod.fst

/-- `list(d.values())` in insertion order. -/
def dvalues {α β : Type} (d : PyDict α β) : List β := d.map Prod.snd

/-- Python `split` with an explicit one-byte separator (`b.split(b' ')`,
`s.split('/')`): empty input gives one empty part, adjacent separators give
empty parts. -/
def splitOnChar (sep : Char) : List Char → List (List Char)
  | [] => [[]]
  | c :: rest =>
    let r := splitOnChar sep rest
    if c = sep then [] :: r
    else
      match r with
      | [] => [[c]]
      | hd :: tl => (c :: hd) :: tl

/-- Python `str.split` with a one-character separator, on Lean strings. -/
def pySplit (sep : Char) (s : String) : List String :=
  (splitOnChar sep s.data).map String.mk

/-! ## ptree: the `treeob` class (`src/ptree.py`)

A `treeob` is an `OrderedDict` of its children keyed by name, plus
`name`, `parent` and `app` (root) attributes.  The tree is modelled as a
purely functional rose tree; a *node* of a concrete tree is addressed by
the path (list of child names) leading to it from the root, so `parent`
is `path.dropLast` and `app` is the empty path. -/

/-- A `treeob` tree: a node name together with the ordered children dict. -/
inductive Tree where
  | node (name : String) (children : List (String × Tree))

/-- The children dict of a tree node. -/
def Tree.children : Tree → PyDict String Tree
  | .node _ c => c

/-- The name of a tree node. -/
def Tree.nodeName : Tree → String
  | .node n _ => n

/-- The node of `root` addressed by a path of child names, if it exists. -/
def nodeAt (root : Tree) : List String → Option Tree
  | [] => some root
  | p :: ps =>
    match dget? root.children p with
    | none => none
    | some c => nodeAt c ps

/-- `treeob.__init__` linking step: `parent[self.name] = self`.  This is a
plain `OrderedDict.__setitem__`; the source contains no check for an
existing child of the same name (despite the docstring's promise of a
`ValueError`), so an existing child is silently replaced. -/
def treeob_link (parent : Tree) (childname : String) (child : Tree) : Tree :=
  .node parent.nodeName (dinsert parent.children childname child)

/-- The inner navigation loop of `treeob.__getitem__` for a multi-component
path: `cnode` is the current node (`none` models Python `None`, which arises
when `..` is taken at the root).  `''` restarts at `app` (the root), `..`
moves to the parent, any other component is a plain child lookup raising
`KeyError` when absent; an operation on `None` raises `AttributeError`. -/
def nav (root : Tree) : Option (List String) → List String → Except PyErr (Option (List String))
  | cnode, [] => .ok cnode
  | cnode, pname :: rest =>
    if pname = "" then nav root (some []) rest
    else if pname = ".." then
      match cnode with
      | none => .error .attributeError
      | some [] => nav root none rest
      | some ps => nav root (some ps.dropLast) rest
    else
      match cnode with
      | none => .error .attributeError
      | some ps =>
        match nodeAt root ps with
        | none => .error .attributeError
        | some t =>
          match dget? t.children pname with
          | none => .error .keyError
          | some _ => nav root (some (ps ++ [pname])) rest

/-- `treeob.__getitem__` for a string key, on the node of `root` at path
`selfp`: a single-component name is a plain (Ordered)dict lookup raising
`KeyError` when absent; a multi-component name (split on `hiernamesep`,
i.e. `/`) is resolved by `nav` starting from the node itself. -/
def getItem (root : Tree) (selfp : List String) (nname : String) :
    Except PyErr (Option (List String)) :=
  let splitname := pySplit '/' nname
  if splitname.length = 1 then
    match nodeAt root selfp with
    | none => .error .attributeError
    | some t =>
      match dget? t.children nname with
      | none => .error .keyError
      | some _ => .ok (some (selfp ++ [nname]))
  else
    nav root (some selfp) splitname

/-! ## watchables: the `watchable` class (`src/pootlestuff/watchables.py`)

A `watchable` holds `_val`, an observers structure (`None` until the first
`addNotify`, then a dict from agent to a list of callbacks), a log level
and flags.  Values are type `V`, agents type `A` (so the
`assert isinstance(agent, self.app.agentclass)` always holds in the
model), callbacks are opaque identifiers of type `C`.  Observer
invocations are recorded as `CallRec` values: `notify` calls each
callback with keyword arguments `oldValue`, `newValue`, `agent` and
`watched=self` (the watchable itself, which in the model is the state
being threaded). -/

/-- State of a `watchable`. -/
structure Watchable (V A C : Type) where
  val : V
  observers : Option (PyDict A (List C))
  loglevel : Nat
  flags : Nat
  deriving DecidableEq

/-- One observer invocation `ob(oldValue=…, newValue=…, agent=…, watched=self)`. -/
structure CallRec (V A C : Type) where
  cb : C
  oldValue : V
  newValue : V
  agent : A
  deriving DecidableEq

/-- `watchable.notify`: when the observers dict exists and is non-empty, the
callback list for the acting agent is copied (empty/absent means no calls),
`_val` is updated, then the copied callbacks are invoked. -/
def watchable_notify {V A C : Type} [DecidableEq A] (w : Watchable V A C)
    (newvalue : V) (agent : A) : Watchable V A C × List (CallRec V A C) :=
  match w.observers with
  | some obs =>
    if obs.isEmpty then (⟨newvalue, w.observers, w.loglevel, w.flags⟩, [])
    else
      let clist := dget? obs agent
      let oldvalue := w.val
      let w' : Watchable V A C := ⟨newvalue, w.observers, w.loglevel, w.flags⟩
      match clist with
      | some cl => (w', cl.map (fun c => ⟨c, oldvalue, newvalue, agent⟩))
      | none => (w', [])
  | none => (⟨newvalue, w.observers, w.loglevel, w.flags⟩, [])

/-- Input to `watchable.setValue`: an ordinary value, or an instance of
`loglvls` or of `wflags` (which only update the log level / flags). -/
inductive SVIn (V : Type) where
  | value (v : V)
  | loglvl (l : Nat)
  | flags (f : Nat)

/-- `watchable.setValue`, parametrised by the subclass's `validValue`.
Returns the new state, the observer calls performed, and the Python result
(`Bool` return value or exception). -/
def watchable_setValue {V A C : Type} [DecidableEq V] [DecidableEq A]
    (validValue : V → A → Except PyErr V) (w : Watchable V A C)
    (value : SVIn V) (agent : A) :
    Watchable V A C × List (CallRec V A C) × Except PyErr Bool :=
  match value with
  | .loglvl l => (⟨w.val, w.observers, l, w.flags⟩, [], .ok false)
  | .flags f => (⟨w.val, w.observers, w.loglevel, f⟩, [], .ok false)
  | .value v =>
    match validValue v agent with
    | .error e => (w, [], .error e)
    | .ok newvalue =>
      if newvalue ≠ w.val then
        let r := watchable_notify w newvalue agent
        (r.1, r.2, .ok true)
      else (w, [], .ok false)

/-- `watchable.addNotify`: create the observers dict on first use, append to
the agent's list when the agent already has one, else add a fresh entry. -/
def watchable_addNotify {V A C : Type} [DecidableEq A] (w : Watchable V A C)
    (callback : C) (agent : A) : Watchable V A C :=
  match w.observers with
  | none => ⟨w.val, some [(agent, [callback])], w.loglevel, w.flags⟩
  | some obs =>
    match dget? obs agent with
    | some cl => ⟨w.val, some (dinsert obs agent (cl ++ [callback])), w.loglevel, w.flags⟩
    | none => ⟨w.val, some (dinsert obs agent [callback]), w.loglevel, w.flags⟩

/-- The callbacks currently registered on `w` for `agent` (empty when the
observers dict does not exist or has no entry for the agent). -/
def registeredFor {V A C : Type} [DecidableEq A] (w : Watchable V A C) (agent : A) : List C :=
  match w.observers with
  | none => []
  | some obs => (dget? obs agent).getD []

/-- `minv is not None and av < minv`. -/
def belowMin (minv : Option Int) (av : Int) : Bool :=
  match minv with
  | some m => decide (av < m)
  | none => false

/-- `maxv is not None and av > maxv`. -/
def aboveMax (maxv : Option Int) (av : Int) : Bool :=
  match maxv with
  | some m => decide (av > m)
  | none => false

/-- `intWatch.validValue` on an already-integer input (`int(value)` is the
identity there): with `clamp`, return `minv` when below it, else `maxv` when
above it, else the value; without `clamp`, return the value when within the
(optionally unbounded) range and raise `ValueError` otherwise.  In the two
clamp returns the guard guarantees the bound is present, so `getD` always
yields the stored bound. -/
def intWatch_validValue (minv maxv : Option Int) (clamp : Bool) (av : Int) :
    Except PyErr Int :=
  if clamp then
    if belowMin minv av then .ok (minv.getD av)
    else if aboveMax maxv av then .ok (maxv.getD av)
    else .ok av
  else
    if !belowMin minv av ∧ !aboveMax maxv av then .ok av
    else .error .valueError

/-- `intVar.validValue` from `pvars.py`, a verbatim duplicate of the
`intWatch` logic. -/
def intVar_validValue (minv maxv : Option Int) (clamp : Bool) (av : Int) :
    Except PyErr Int :=
  if clamp then
    if belowMin minv av then .ok (minv.getD av)
    else if aboveMax maxv av then .ok (maxv.getD av)
    else .ok av
  else
    if !belowMin minv av ∧ !aboveMax maxv av then .ok av
    else .error .valueError

/-! ### enumWatch -/

/-- State of an `enumWatch`: the value list, the wrap/clamp policy and the
underlying watchable. -/
structure EnumWatch (V A C : Type) where
  vlist : List V
  wrap : Bool
  clamp : Bool
  core : Watchable V A C

/-- `enumWatch.validValue`: the value must be a member of `vlist`. -/
def enumWatch_validValue {V : Type} [DecidableEq V] (vlist : List V) (value : V) :
    Except PyErr V :=
  if value ∈ vlist then .ok value else .error .valueError

/-- `enumWatch.getIndex`: `vlist.index(self._val)`, raising `ValueError`
when the current value is not in the list. -/
def enumWatch_getIndex {V A C : Type} [DecidableEq V] (e : EnumWatch V A C) :
    Except PyErr Nat :=
  if e.core.val ∈ e.vlist then .ok (e.vlist.indexOf e.core.val) else .error .valueError

/-- `setValue` on an `enumWatch` (the inherited `watchable.setValue` with the
enum `validValue`). -/
def enumWatch_setValue {V A C : Type} [DecidableEq V] [DecidableEq A]
    (e : EnumWatch V A C) (value : SVIn V) (agent : A) :
    EnumWatch V A C × List (CallRec V A C) × Except PyErr Bool :=
  let r := watchable_setValue (fun v _ => enumWatch_validValue e.vlist v) e.core value agent
  (⟨e.vlist, e.wrap, e.clamp, r.1⟩, r.2.1, r.2.2)

/-- `enumWatch.increment`: compute the target index; in range, set the value
there (returning `setValue`'s boolean); past an end, wrap or clamp when so
configured (returning Python `None`, modelled as the `none` result), else
raise `ValueError`.  `vlist[-1]`/`vlist[0]` on an empty list would raise
`IndexError`. -/
def enumWatch_increment {V A C : Type} [DecidableEq V] [DecidableEq A]
    (e : EnumWatch V A C) (agent : A) (inc : Int) :
    EnumWatch V A C × List (CallRec V A C) × Except PyErr (Option Bool) :=
  match enumWatch_getIndex e with
  | .error er => (e, [], .error er)
  | .ok i =>
    let newi : Int := (i : Int) + inc
    if h : 0 ≤ newi ∧ newi < e.vlist.length then
      let r := enumWatch_setValue e (.value (e.vlist.get ⟨newi.toNat, by omega⟩)) agent
      (r.1, r.2.1, r.2.2.map (fun b => some b))
    else
      let uv : Except PyErr V :=
        if e.wrap then
          if newi < 0 then
            match e.vlist.getLast? with
            | some v => .ok v
            | none => .error .indexError
          else
            match e.vlist.head? with
            | some v => .ok v
            | none => .error .indexError
        else if e.clamp then
          if newi < 0 then
            match e.vlist.head? with
            | some v => .ok v
            | none => .error .indexError
          else
            match e.vlist.getLast? with
            | some v => .ok v
            | none => .error .indexError
        else .error .valueError
      match uv with
      | .error er => (e, [], .error er)
      | .ok useval =>
        let r := enumWatch_setValue e (.value useval) agent
        (r.1, r.2.1, r.2.2.map (fun _ => none))

/-! ## pvars: the `baseVar` class (`src/pootlestuff/pvars.py`)

A `baseVar` holds `_lvvalue` and the `onChange` dict from agent to list of
notification functions; the root node's `agents` list defines the known
agents. -/

/-- State of a `baseVar`: current value and the `onChange` observer dict. -/
structure BaseVar (V A C : Type) where
  lvvalue : V
  onChange : PyDict A (List C)
  deriving DecidableEq

/-- `baseVar.notify`: call every function registered for the acting agent
with `oldValue`, `newValue`, `agent` and `var=self`. -/
def baseVar_notify {V A C : Type} [DecidableEq A] (b : BaseVar V A C)
    (agent : A) (oldValue newValue : V) : List (CallRec V A C) :=
  match dget? b.onChange agent with
  | some fl => fl.map (fun f => ⟨f, oldValue, newValue, agent⟩)
  | none => []

/-- `baseVar.setValue`, parametrised by the subclass's `validValue`: raise
`RuntimeError` for an unknown agent, validate (possibly raising
`ValueError`), return `False` and do nothing when the canonical value is
unchanged, else store it, notify and return `True`. -/
def baseVar_setValue {V A C : Type} [DecidableEq V] [DecidableEq A] (agents : List A)
    (validValue : V → A → Except PyErr V) (b : BaseVar V A C) (value : V) (agent : A) :
    BaseVar V A C × List (CallRec V A C) × Except PyErr Bool :=
  if agent ∈ agents then
    let oldValue := b.lvvalue
    match validValue value agent with
    | .error e => (b, [], .error e)
    | .ok newValue =>
      if newValue = b.lvvalue then (b, [], .ok false)
      else
        let b' : BaseVar V A C := ⟨newValue, b.onChange⟩
        (b', baseVar_notify b' agent oldValue newValue, .ok true)
  else (b, [], .error .runtimeError)

/-! ## pvars: `groupVar` trees

A tree of `groupVar` nodes with `baseVar` leaves (leaf values are modelled
as integers; the loglvls branch of `groupVar.setValue` only touches the log
level and is outside the value model).  A Python value passed to
`setValue`/returned by `getValue` is either a plain value or a dict. -/

/-- A Python value flowing through `groupVar.getValue`/`setValue`: a leaf
value or a dict keyed by child name. -/
inductive PVal where
  | vint (i : Int)
  | vdict (items : List (String × PVal))

/-- A subtree of vars: a leaf `baseVar` holding a value, or a `groupVar`
with its ordered children dict. -/
inductive PVar where
  | leaf (v : Int)
  | group (children : List (String × PVar))

/-- The children dict of a var node (a `baseVar` has no children). -/
def pvarChildren : PVar → PyDict String PVar
  | .leaf _ => []
  | .group ch => ch

mutual

/-- `groupVar.getValue` / `baseVar.getValue`: a group returns
`OrderedDict([(n, v.getValue()) for n, v in self.items()])`, a leaf returns
its stored value. -/
def pvar_getValue : PVar → PVal
  | .leaf v => .vint v
  | .group ch => .vdict (pvarList_getValue ch)

/-- The dict comprehension inside `groupVar.getValue`. -/
def pvarList_getValue : List (String × PVar) → List (String × PVal)
  | [] => []
  | (n, c) :: rest => (n, pvar_getValue c) :: pvarList_getValue rest

end

mutual

/-- `groupVar.setValue`: after the agent check, iterate `value.items()`
(raising `AttributeError` when the value is not a dict), assert each key is
a child name — and then call `self.setValue(v, agent)` on **self**, exactly
as the source does (the child `self[n]` is never updated). -/
def groupVar_setValue (agents : List String) (g : PVar) (value : PVal) (agent : String) :
    PVar × Except PyErr Unit :=
  if agent ∈ agents then
    match value with
    | .vint _ => (g, .error .attributeError)
    | .vdict items => groupVar_setItems agents g items agent
  else (g, .error .runtimeError)

/-- The `for n, v in value.items()` loop body of `groupVar.setValue`. -/
def groupVar_setItems (agents : List String) (g : PVar) (items : List (String × PVal))
    (agent : String) : PVar × Except PyErr Unit :=
  match items with
  | [] => (g, .ok ())
  | (n, v) :: rest =>
    if (dget? (pvarChildren g) n).isSome then
      match groupVar_setValue agents g v agent with
      | (g', .ok _) => groupVar_setItems agents g' rest agent
      | (g', .error e) => (g', .error e)
    else (g, .error .assertionError)

end

/-! ## watchables: `watchablegroup` (`src/pootlestuff/watchables.py`)

A group whose members are `textWatch` watchables (whose `validValue` is the
identity on strings), modelled by the dict from attribute name to current
value plus `perslist`, the names of the persistent members. -/

/-- A `watchablegroup` of `textWatch` members: attribute dict and
persistence list. -/
structure WGroupT where
  vals : PyDict String String
  perslist : List String
  deriving DecidableEq

/-- `watchablegroup.fetchsettings`:
`{kv: getattr(self, kv).getValue() for kv in self.perslist}`; `getattr` on a
missing attribute raises `AttributeError`. -/
def fetchsettingsT (g : WGroupT) : Except PyErr (PyDict String String) :=
  List.foldlM
    (fun acc kv =>
      match dget? g.vals kv with
      | some v => Except.ok (dinsert acc kv v)
      | none => Except.error PyErr.attributeError)
    [] g.perslist

/-- The loop of `watchablegroup.applysettings`.  `for k, v in settings:`
iterates the *keys* of the settings dict and unpacks each key string into
`k, v`: a key of exactly two characters yields two one-character strings,
any other key raises `ValueError`.  When the unpacked `k` is in `perslist`,
`getattr(self, k).setValue(v, agent)` stores the one-character string `v`
(a `textWatch` accepts any string unchanged). -/
def applysettingsT_go (g : WGroupT) (keys : List String) (agent : String) :
    WGroupT × Except PyErr Unit :=
  match keys with
  | [] => (g, .ok ())
  | kk :: rest =>
    match kk.data with
    | [c1, c2] =>
      let k := String.mk [c1]
      let v := String.mk [c2]
      if k ∈ g.perslist then
        match dget? g.vals k with
        | some _ => applysettingsT_go ⟨dinsert g.vals k v, g.perslist⟩ rest agent
        | none => (g, .error .attributeError)
      else applysettingsT_go g rest agent
    | _ => (g, .error .valueError)

/-- `watchablegroup.applysettings` on a settings dict. -/
def applysettingsT (g : WGroupT) (settings : PyDict String String) (agent : String) :
    WGroupT × Except PyErr Unit :=
  applysettingsT_go g (dkeys settings) agent

/-! ## netinf (`src/netinf.py`)

The `ifconfig` output is a list of byte lines, each modelled as a
`List Char` (ifconfig output is ASCII) that *includes* its trailing
newline, as `readline` returns it; end of input is the end of the list
(`readline` then returns the empty bytes).  Byte 32 is `' '` and byte 10
is `'\n'`. -/

/-- ASCII whitespace as stripped by Python `bytes.strip()`. -/
def pyWS (c : Char) : Bool :=
  c = ' ' || c = '\t' || c = '\n' || c = '\r' || c = Char.ofNat 11 || c = Char.ofNat 12

/-- Python `bytes.strip()`. -/
def pstrip (l : List Char) : List Char :=
  ((l.dropWhile pyWS).reverse.dropWhile pyWS).reverse

/-- `[p.strip() for p in aline.strip().split(b' ') if not p.strip() == b'']`. -/
def lineParts (aline : List Char) : List (List Char) :=
  ((splitOnChar ' ' (pstrip aline)).map pstrip).filter (fun p => !p.isEmpty)

/-- `inameb, rest = aline.split(b':', maxsplit=1)` followed by
`inameb.decode()`: the name before the first `':'`, raising `ValueError`
(unpacking a 1-element list) when the line holds no `':'`. -/
def headerName (aline : List Char) : Except PyErr String :=
  if ':' ∈ aline then .ok (String.mk (aline.takeWhile (fun c => c ≠ ':')))
  else .error .valueError

/-- A value stored in an interface's info dict: an `'IP4'` entry (a dict
from `_ip4parse`) or a `'mac_addr'` entry (a decoded string). -/
inductive SectVal where
  | ip4 (d : PyDict String String)
  | mac (s : String)
  deriving DecidableEq

/-- The per-interface info dict built by `netinf`. -/
abbrev IfaceInfo := PyDict String (List SectVal)

/-- `_sectadd`: start a one-element list for a fresh key, else append. -/
def sectadd (dd : IfaceInfo) (key : String) (v : SectVal) : IfaceInfo :=
  match dget? dd key with
  | none => dinsert dd key [v]
  | some l => dinsert dd key (l ++ [v])

/-- The pair loop of `_ip4parse`:
`for x in range(2, len(lparts)-1, 2): ip4inf[lparts[x]] = lparts[x+1]`,
running here over `lparts[2:]` two elements at a time. -/
def kvpairs : List (List Char) → PyDict String String → PyDict String String
  | a :: b :: rest, d => kvpairs rest (dinsert d (String.mk a) (String.mk b))
  | _, d => d

/-- `_ip4parse`: `{'peer': lparts[1]}` extended with the following
key/value pairs; `lparts[1]` raises `IndexError` when absent. -/
def ip4parse (lparts : List (List Char)) : Except PyErr (PyDict String String) :=
  match lparts with
  | _ :: p1 :: rest => .ok (kvpairs rest [("peer", String.mk p1)])
  | _ => .error .indexError

/-- One iteration of the inner (indented-line) loop of `netinf`: dispatch on
the first token.  `lparts[0]` on a whitespace-only line raises `IndexError`;
`inet` adds an `'IP4'` entry, `ether` adds a `'mac_addr'` entry (raising
`IndexError` without a second token), `inet6`/`loop`/`RX`/`TX` and unknown
tokens (which are merely printed) leave the info unchanged. -/
def parseIfLine (aline : List Char) (info : IfaceInfo) : Except PyErr IfaceInfo :=
  match lineParts aline with
  | [] => .error .indexError
  | p0 :: prest =>
    if p0 = "inet".data then
      match ip4parse (p0 :: prest) with
      | .ok d => .ok (sectadd info "IP4" (.ip4 d))
      | .error e => .error e
    else if p0 = "inet6".data then .ok info
    else if p0 = "ether".data then
      match prest with
      | p1 :: _ => .ok (sectadd info "mac_addr" (.mac (String.mk p1)))
      | [] => .error .indexError
    else .ok info

/-- Parser position: `top` is the head of the outer `while` loop, `inner`
is the indented-line loop inside an interface section (carrying the
interface name and the info collected so far). -/
inductive PMode where
  | top
  | inner (iname : String) (info : IfaceInfo)

/-- The loop nest of `netinf` as a single recursion over the remaining
lines.  In `top` position: end of input ends the loop; an empty bytes line
ends it too (`len(aline) > 0`); a line starting with `' '` or `'\n'` is
reported as unexpected and skipped; otherwise the line names an interface
and parsing continues in `inner` position with an empty info dict.  In
`inner` position: end of input raises `IndexError` (`aline[0]` on empty
bytes); a line starting with `' '` is parsed into the info; otherwise the
section is over, `ifaces[iname] = ifaceinfo` takes effect, and the outer
loop resumes on the very same line — which, not starting with `' '`, is
either skipped (when it is the `'\n'` separator) or handled as the next
interface header; that outer-loop re-entry is unfolded here so that every
recursive call consumes a line. -/
def netinfGo : List (List Char) → PMode → PyDict String IfaceInfo →
    Except PyErr (PyDict String IfaceInfo)
  | [], .top, ifaces => .ok ifaces
  | [], .inner _ _, _ => .error .indexError
  | aline :: rest, .top, ifaces =>
    match aline with
    | [] => .ok ifaces
    | c :: _ =>
      if c = ' ' ∨ c = '\n' then netinfGo rest .top ifaces
      else
        match headerName aline with
        | .error e => .error e
        | .ok iname => netinfGo rest (.inner iname []) ifaces
  | aline :: rest, .inner iname info, ifaces =>
    match aline with
    | [] => .error .indexError
    | c :: _ =>
      if c = ' ' then
        match parseIfLine aline info with
        | .error e => .error e
        | .ok info' => netinfGo rest (.inner iname info') ifaces
      else
        let ifaces' := dinsert ifaces iname info
        if c = '\n' then netinfGo rest .top ifaces'
        else
          match headerName aline with
          | .error e => .error e
          | .ok iname' => netinfGo rest (.inner iname' []) ifaces'

/-- `netinf` on a given ifconfig output. -/
def netinf (lines : List (List Char)) : Except PyErr (PyDict String IfaceInfo) :=
  netinfGo lines .top []

/-- The inner filter of the `allIP4` comprehension on one `'IP4'` entry:
`e['peer']` kept when `'peer' in e and e['peer'] != '127.0.0.1'` (a
`'mac_addr'` entry never sits under the `'IP4'` key). -/
def sectPeer : SectVal → List String
  | .ip4 d =>
    match dget? d "peer" with
    | some p => if p ≠ "127.0.0.1" then [p] else []
    | none => []
  | .mac _ => []

/-- The per-interface part of the `allIP4` comprehension:
`if 'IP4' in x for e in x['IP4'] …`. -/
def infoPeers (x : IfaceInfo) : List String :=
  match dget? x "IP4" with
  | none => []
  | some es => es.flatMap sectPeer

/-- `allIP4`:
`[e['peer'] for x in netinf().values() if 'IP4' in x for e in x['IP4']
if 'peer' in e and e['peer'] != '127.0.0.1']`. -/
def allIP4 (lines : List (List Char)) : Except PyErr (List String) :=
  match netinf lines with
  | .error e => .error e
  | .ok ifaces => .ok ((dvalues ifaces).flatMap infoPeers)

/-- Does a byte line start with a space (continuation line of an interface
section)? -/
def startsSpace (l : List Char) : Bool :=
  l.head? = some ' '

/-- Modelled from the spec: "a parser that … extracts IPv4 addresses" from
interface blocks — the block structure of an ifconfig output, stated
directly on the lines: a block starts at a line that begins neither with a
space nor with a newline and is named by the text before the first `':'`;
its body is the run of space-indented lines that follows.  The recursion is
driven by a fuel argument (each step consumes at least one line, so the
line count is always enough fuel). -/
def specBlocksFuel : Nat → List (List Char) → List (String × List (List Char))
  | 0, _ => []
  | _ + 1, [] => []
  | fuel + 1, aline :: rest =>
    match aline with
    | [] => []
    | c :: _ =>
      if c = ' ' ∨ c = '\n' then specBlocksFuel fuel rest
      else
        (String.mk (aline.takeWhile (fun ch => ch ≠ ':')), rest.takeWhile startsSpace)
          :: specBlocksFuel fuel (rest.dropWhile startsSpace)

/-- The interface blocks of an ifconfig output (see `specBlocksFuel`). -/
def specBlocks (lines : List (List Char)) : List (String × List (List Char)) :=
  specBlocksFuel lines.length lines

/-- Modelled from the spec: the IPv4 host address carried by an `inet`
line — its second whitespace-separated token. -/
def inetPeerTok (l : List Char) : Option String :=
  match lineParts l with
  | p0 :: p1 :: _ => if p0 = "inet".data then some (String.mk p1) else none
  | _ => none

/-- Modelled from the spec: the non-loopback IPv4 host addresses of an
ifconfig output, block by block in interface order, one per `inet` line. -/
def specAllIP4 (lines : List (List Char)) : List String :=
  ((specBlocks lines).flatMap (fun b => b.2.filterMap inetPeerTok)).filter
    (fun p => p ≠ "127.0.0.1")

/-- The keys at the even positions of `lparts[2:]` of an `inet` line — the
keys `_ip4parse` inserts after `'peer'`. -/
def kvKeys : List (List Char) → List String
  | a :: _ :: rest => String.mk a :: kvKeys rest
  | _ => []

/-- Whether an `Except` value is a success. -/
def exceptOk {ε α : Type} : Except ε α → Bool
  | .ok _ => true
  | .error _ => false

/-- The `'IP4'` entry list of an interface info dict (empty when absent). -/
def ip4list (info : IfaceInfo) : List SectVal :=
  (dget? info "IP4").getD []

/-- Running the inner-loop body of `netinf` over a whole run of indented
lines (the info carried through the loop). -/
def blockInfo (info : IfaceInfo) : List (List Char) → Except PyErr IfaceInfo
  | [] => .ok info
  | l :: rest =>
    match parseIfLine l info with
    | .error e => .error e
    | .ok info' => blockInfo info' rest

/-- The `'IP4'` entry an indented line contributes: the `_ip4parse` dict of
an `inet` line with at least two tokens, nothing otherwise. -/
def inetSect? (l : List Char) : Option SectVal :=
  match lineParts l with
  | p0 :: prest =>
    if p0 = "inet".data then
      match ip4parse (p0 :: prest) with
      | .ok d => some (.ip4 d)
      | .error _ => none
    else none
  | [] => none

/-- `blockInfo` starting from an empty info dict, applied to every block of
an ifconfig output in order. -/
def specBlocksInfo : List (String × List (List Char)) → Except PyErr (List (String × IfaceInfo))
  | [] => .ok []
  | b :: rest =>
    match blockInfo [] b.2 with
    | .error e => .error e
    | .ok i =>
      match specBlocksInfo rest with
      | .error e => .error e
      | .ok tl => .ok ((b.1, i) :: tl)

/-- A small concrete ifconfig transcript (lines carry their newlines) used
to evaluate the model: one real interface and the loopback. -/
def sampleIfconfig : List (List Char) :=
  ["eth0: flags=4163  mtu 1500\n".data,
   "        inet 192.168.1.5 netmask 255.255.255.0 broadcast 192.168.1.255\n".data,
   "        ether aa:bb:cc:dd:ee:ff txqueuelen 1000 (Ethernet)\n".data,
   "\n".data,
   "lo: flags=73  mtu 65536\n".data,
   "        inet 127.0.0.1 netmask 255.0.0.0\n".data,
   "        loop txqueuelen 1000 (Local Loopback)\n".data,
   "\n".data]

/-! ## Theorems -/

theorem dget_dinsert {α β : Type} [DecidableEq α] (d : PyDict α β) (k : α) (v : β) :
    dget? (dinsert d k v) k = some v := by
  induction d with
  | nil => simp [dinsert, dget?]
  | cons hd tl ih =>
    obtain ⟨k', v'⟩ := hd
    by_cases h : k' = k <;> simp [dinsert, dget?, h, ih]

theorem dget_dinsert_ne {α β : Type} [DecidableEq α] (d : PyDict α β) (k k' : α) (v : β)
    (h : k ≠ k') : dget? (dinsert d k v) k' = dget? d k' := by
  induction d with
  | nil => simp [dinsert, dget?, h]
  | cons hd tl ih =>
    obtain ⟨k0, v0⟩ := hd
    by_cases h0 : k0 = k
    · subst h0
      simp [dinsert, dget?, h]
    · simp [dinsert, dget?, h0, ih]

theorem nodeAt_append_child (root : Tree) (ps : List String) (t : Tree) (a : String)
    (ta : Tree) (hps : nodeAt root ps = some t) (ha : dget? t.children a = some ta) :
    nodeAt root (ps ++ [a]) = some ta := by
  induction ps generalizing root with
  | nil =>
    simp only [nodeAt] at hps
    cases hps
    simp [nodeAt, ha]
  | cons p ps ih =>
    simp only [nodeAt, List.cons_append] at hps ⊢
    cases hc : dget? root.children p with
    | none => simp [hc] at hps
    | some c =>
      simp only [hc] at hps ⊢
      exact ih c hps

/-- C1: the claim says that for a `groupVar` with a known agent and a
non-empty dict value keyed by child names, `setValue(value, agent)`
terminates and updates each named child, leaving the others unchanged.
The source instead calls `self.setValue(v, agent)` on itself, so the loop
re-runs `setValue` on the child's *value*: a leaf value has no `items()`
and the call raises `AttributeError`, with no child updated.  Evaluated
here on a group with one leaf child `a` holding `3` and the value dict
`{'a': 5}` from a known agent: the result is `AttributeError` and the
unchanged tree. -/
theorem C1_groupVar_setValue_attributeError :
    groupVar_setValue ["app"] (.group [("a", .leaf 3)]) (.vdict [("a", .vint 5)]) "app"
      = (.group [("a", .leaf 3)], .error .attributeError) := by
  rfl

/-- C2: the claim says a new `treeob` child whose name collides with an
existing child is rejected (as `treeob.__init__`'s docstring also promises).
The linking step `parent[self.name] = self` performs no such check:
evaluated on a parent with an existing child `x` (which itself has a
child), linking a fresh node also named `x` succeeds and silently replaces
the existing child. -/
theorem C2_treeob_link_replaces :
    treeob_link (.node "p" [("x", .node "x" [("old", .node "old" [])])]) "x" (.node "x" [])
      = .node "p" [("x", .node "x" [])] := by
  rfl

/-- C9: the claim says `applysettings(fetchsettings(), agent)` is a
successful no-op round trip.  `applysettings` iterates `for k, v in
settings:` over the settings *dict*, which yields its keys and unpacks
each key string into two characters; a persistent watchable named
`speed` (5 characters) therefore makes the round trip raise `ValueError`,
with the group unchanged.  Evaluated on a group with one persistent
`textWatch` `speed` holding `"fast"`. -/
theorem C9_applysettings_roundtrip_valueError :
    fetchsettingsT ⟨[("speed", "fast")], ["speed"]⟩ = .ok [("speed", "fast")] ∧
    applysettingsT ⟨[("speed", "fast")], ["speed"]⟩ [("speed", "fast")] "app"
      = (⟨[("speed", "fast")], ["speed"]⟩, .error .valueError) := by
  constructor <;> rfl

/-- C4: `intWatch.validValue` (and the identical `intVar.validValue`): with
`clamp`, an input below `minv` yields `minv`, an input above `maxv` (and not
below `minv`) yields `maxv`, and an in-range input is returned unchanged;
without `clamp`, an in-range input (a `None` bound being unbounded) is
returned unchanged and anything else raises `ValueError`. -/
theorem C4_int_validValue_spec :
    (∀ (m : Int) (maxv : Option Int) (av : Int), av < m →
        intWatch_validValue (some m) maxv true av = .ok m) ∧
    (∀ (minv : Option Int) (mx av : Int), (∀ m ∈ minv, m ≤ av) → av > mx →
        intWatch_validValue minv (some mx) true av = .ok mx) ∧
    (∀ (minv maxv : Option Int) (av : Int),
        (∀ m ∈ minv, m ≤ av) → (∀ m ∈ maxv, av ≤ m) →
        intWatch_validValue minv maxv true av = .ok av) ∧
    (∀ (minv maxv : Option Int) (av : Int),
        (∀ m ∈ minv, m ≤ av) → (∀ m ∈ maxv, av ≤ m) →
        intWatch_validValue minv maxv false av = .ok av) ∧
    (∀ (minv maxv : Option Int) (av : Int),
        ¬ ((∀ m ∈ minv, m ≤ av) ∧ (∀ m ∈ maxv, av ≤ m)) →
        intWatch_validValue minv maxv false av = .error .valueError) ∧
    (∀ (minv maxv : Option Int) (clamp : Bool) (av : Int),
        intVar_validValue minv maxv clamp av = intWatch_validValue minv maxv clamp av) := by
  refine ⟨?_, ?_, ?_, ?_, ?_, ?_⟩
  · intro m maxv av h
    simp [intWatch_validValue, belowMin, h]
  · intro minv mx av hmin h
    cases minv with
    | none => simp [intWatch_validValue, belowMin, aboveMax, h]
    | some m =>
      have : ¬ av < m := not_lt.mpr (hmin m rfl)
      simp [intWatch_validValue, belowMin, aboveMax, h, this]
  · intro minv maxv av hmin hmax
    cases minv <;> cases maxv <;> simp_all [intWatch_validValue, belowMin, aboveMax]
    all_goals split_ifs <;> first | rfl | omega
  · intro minv maxv av hmin hmax
    cases minv <;> cases maxv <;> simp_all [intWatch_validValue, belowMin, aboveMax]
  · intro minv maxv av h
    cases minv <;> cases maxv <;> simp_all [intWatch_validValue, belowMin, aboveMax]
  · intro minv maxv clamp av
    rfl

/-- Witness for C4 at concrete inputs: bounds `2`/`9`, clamping `1` up to
`2` and `12` down to `9`, passing `5` through, and rejecting `12` without
clamp. -/
theorem C4_int_validValue_witness :
    intWatch_validValue (some 2) (some 9) true 1 = .ok 2 ∧
    intWatch_validValue (some 2) (some 9) true 12 = .ok 9 ∧
    intWatch_validValue (some 2) (some 9) true 5 = .ok 5 ∧
    intWatch_validValue (some 2) (some 9) false 5 = .ok 5 ∧
    intWatch_validValue (some 2) (some 9) false 12 = .error .valueError ∧
    intVar_validValue (some 2) (some 9) true 1 = intWatch_validValue (some 2) (some 9) true 1 :=
  ⟨C4_int_validValue_spec.1 2 (some 9) 1 (by decide),
   C4_int_validValue_spec.2.1 (some 2) 9 12 (by decide) (by decide),
   C4_int_validValue_spec.2.2.1 (some 2) (some 9) 5 (by decide) (by decide),
   C4_int_validValue_spec.2.2.2.1 (some 2) (some 9) 5 (by decide) (by decide),
   C4_int_validValue_spec.2.2.2.2.1 (some 2) (some 9) 12 (by decide),
   C4_int_validValue_spec.2.2.2.2.2 (some 2) (some 9) true 1⟩

theorem pvarList_getValue_keys (ch : List (String × PVar)) :
    dkeys (pvarList_getValue ch) = dkeys ch := by
  induction ch with
  | nil => rfl
  | cons hd tl ih =>
    obtain ⟨n, c⟩ := hd
    simp [pvarList_getValue, dkeys] at ih ⊢
    exact ih

theorem pvarList_getValue_lookup (ch : List (String × PVar)) (n : String) :
    dget? (pvarList_getValue ch) n = (dget? ch n).map pvar_getValue := by
  induction ch with
  | nil => rfl
  | cons hd tl ih =>
    obtain ⟨n', c⟩ := hd
    by_cases h : n' = n <;> simp [pvarList_getValue, dget?, h, ih]

/-- C7: `groupVar.getValue` returns a plain mapping whose keys are exactly
the child names in insertion order, each bound to that child's `getValue`
result (so a subtree of groups and leaves serialises to a nested plain
mapping). -/
theorem C7_groupVar_getValue_mapping :
    ∀ (ch : List (String × PVar)), ∃ d,
      pvar_getValue (.group ch) = .vdict d ∧
      dkeys d = dkeys ch ∧
      ∀ n, dget? d n = (dget? ch n).map pvar_getValue := by
  intro ch
  refine ⟨pvarList_getValue ch, rfl, pvarList_getValue_keys ch, fun n => ?_⟩
  exact pvarList_getValue_lookup ch n

theorem watchable_notify_spec {V A C : Type} [DecidableEq A] (w : Watchable V A C)
    (nv : V) (agent : A) :
    watchable_notify w nv agent =
      (⟨nv, w.observers, w.loglevel, w.flags⟩,
        (registeredFor w agent).map (fun c => ⟨c, w.val, nv, agent⟩)) := by
  unfold watchable_notify registeredFor
  cases w.observers with
  | none => rfl
  | some obs =>
    by_cases he : obs.isEmpty
    · have : obs = [] := List.isEmpty_iff.mp he
      subst this
      simp [dget?]
    · cases hg : dget? obs agent <;> simp [he, hg]

theorem registeredFor_addNotify {V A C : Type} [DecidableEq A] (w : Watchable V A C)
    (c : C) (agent : A) :
    registeredFor (watchable_addNotify w c agent) agent = registeredFor w agent ++ [c] := by
  unfold watchable_addNotify registeredFor
  cases w.observers with
  | none => simp [dget?]
  | some obs =>
    cases hg : dget? obs agent with
    | some cl => simp [hg, dget_dinsert]
    | none => simp [hg, dget_dinsert]

/-- C3: when `setValue` is called with agent `a` and a valid value differing
from the current one, exactly the callbacks registered via `addNotify` for
`a` are invoked, each with the old value, the new value, agent `a` (and
`watched`, the watchable itself); a callback registered only for a distinct
agent `b` is not invoked; and `addNotify` appends the callback to the
agent's registration list. -/
theorem C3_setValue_notifies_exactly_agent :
    ∀ (V A C : Type) [DecidableEq V] [DecidableEq A] [DecidableEq C]
      (vv : V → A → Except PyErr V) (w : Watchable V A C) (value v : V) (a b : A),
      vv value a = .ok v → v ≠ w.val →
      (watchable_setValue vv w (.value value) a).2.1
          = (registeredFor w a).map (fun c => ⟨c, w.val, v, a⟩) ∧
      (watchable_setValue vv w (.value value) a).1.val = v ∧
      (watchable_setValue vv w (.value value) a).2.2 = .ok true ∧
      (a ≠ b → ∀ c, c ∈ registeredFor w b → c ∉ registeredFor w a →
        ∀ r ∈ (watchable_setValue vv w (.value value) a).2.1, r.cb ≠ c) ∧
      (∀ (c : C), registeredFor (watchable_addNotify w c a) a
          = registeredFor w a ++ [c]) := by
  intro V A C _ _ _ vv w value v a b hvv hne
  have hsv : watchable_setValue vv w (.value value) a =
      ((watchable_notify w v a).1, (watchable_notify w v a).2, .ok true) := by
    simp [watchable_setValue, hvv, hne]
  rw [watchable_notify_spec] at hsv
  refine ⟨by rw [hsv], by rw [hsv], by rw [hsv], ?_, fun c => registeredFor_addNotify w c a⟩
  intro _ c _ hnotA r hr
  rw [hsv] at hr
  simp only [List.mem_map] at hr
  obtain ⟨c', hc', hrc⟩ := hr
  intro hcc
  apply hnotA
  have hcc' : c' = c := by rw [← hcc, ← hrc]
  rwa [hcc'] at hc'

/-- Witness for C3: a watchable with callback `10` registered for agent `1`
and callback `20` for agent `2`; setting value `5` (over old value `0`) by
agent `1` invokes exactly callback `10` with the old and new values and
agent `1`, updates the value, and does not invoke `20`. -/
theorem C3_setValue_notifies_exactly_agent_witness :
    (watchable_setValue (fun (x : Int) (_ : Nat) => Except.ok x)
        (⟨0, some [(1, [10]), (2, [20])], 20, 0⟩ : Watchable Int Nat Nat) (.value 5) 1).2.1
      = (registeredFor
          (⟨0, some [(1, [10]), (2, [20])], 20, 0⟩ : Watchable Int Nat Nat) 1).map
          (fun c => ⟨c, 0, 5, 1⟩) ∧
    (watchable_setValue (fun (x : Int) (_ : Nat) => Except.ok x)
        (⟨0, some [(1, [10]), (2, [20])], 20, 0⟩ : Watchable Int Nat Nat) (.value 5) 1).1.val
      = 5 ∧
    (watchable_setValue (fun (x : Int) (_ : Nat) => Except.ok x)
        (⟨0, some [(1, [10]), (2, [20])], 20, 0⟩ : Watchable Int Nat Nat) (.value 5) 1).2.2
      = .ok true ∧
    ((1 : Nat) ≠ 2 → ∀ c, c ∈ registeredFor
          (⟨0, some [(1, [10]), (2, [20])], 20, 0⟩ : Watchable Int Nat Nat) 2 →
        c ∉ registeredFor
          (⟨0, some [(1, [10]), (2, [20])], 20, 0⟩ : Watchable Int Nat Nat) 1 →
        ∀ r ∈ (watchable_setValue (fun (x : Int) (_ : Nat) => Except.ok x)
          (⟨0, some [(1, [10]), (2, [20])], 20, 0⟩ : Watchable Int Nat Nat) (.value 5) 1).2.1,
          r.cb ≠ c) ∧
    (∀ (c : Nat), registeredFor (watchable_addNotify
          (⟨0, some [(1, [10]), (2, [20])], 20, 0⟩ : Watchable Int Nat Nat) c 1) 1
        = registeredFor (⟨0, some [(1, [10]), (2, [20])], 20, 0⟩ : Watchable Int Nat Nat) 1
          ++ [c]) :=
  C3_setValue_notifies_exactly_agent Int Nat Nat (fun x _ => Except.ok x)
    ⟨0, some [(1, [10]), (2, [20])], 20, 0⟩ 5 5 1 2 rfl (by decide)

theorem indexOf_head {V : Type} [DecidableEq V] :
    ∀ (l : List V) (h : l ≠ []), l.indexOf (l.head h) = 0
  | _ :: _, _ => by simp

theorem nodup_indexOf_getLast {V : Type} [DecidableEq V] :
    ∀ (l : List V) (h : l ≠ []), l.Nodup → l.indexOf (l.getLast h) = l.length - 1 := by
  intro l
  induction l with
  | nil => intro h; exact absurd rfl h
  | cons x t ih =>
    intro h hnd
    cases t with
    | nil => simp
    | cons y s =>
      have hlast : (x :: y :: s).getLast h = (y :: s).getLast (by simp) :=
        List.getLast_cons (by simp)
      have hne : x ≠ (y :: s).getLast (by simp) := by
        intro hx
        have hmem : (y :: s).getLast (by simp) ∈ y :: s := List.getLast_mem (by simp)
        rw [← hx] at hmem
        exact (List.nodup_cons.mp hnd).1 hmem
      have ihv := ih (by simp) (List.nodup_cons.mp hnd).2
      rw [hlast, List.indexOf_cons_ne _ hne, ihv]
      simp

theorem enumWatch_setValue_val {V A C : Type} [DecidableEq V] [DecidableEq A]
    (e : EnumWatch V A C) (v : V) (agent : A) (hv : v ∈ e.vlist) :
    (enumWatch_setValue e (.value v) agent).1.core.val = v ∧
    (enumWatch_setValue e (.value v) agent).1.vlist = e.vlist := by
  unfold enumWatch_setValue watchable_setValue enumWatch_validValue
  simp only [hv, if_pos]
  by_cases h : v = e.core.val
  · simp [h]
  · simp [h, watchable_notify_spec]

/-- C5: `enumWatch.increment` on a (duplicate-free) non-empty value list:
with `wrap`, a step of `+1` from the last element lands on the first and a
step of `-1` from the first lands on the last; with neither `wrap` nor
`clamp`, stepping past either end raises `ValueError` and leaves the state
(value included) unchanged with no callback invoked. -/
theorem C5_enumWatch_increment_wrap :
    ∀ (V A C : Type) [DecidableEq V] [DecidableEq A] (e : EnumWatch V A C) (agent : A)
      (hne : e.vlist ≠ []) (_ : e.vlist.Nodup),
      (e.wrap = true → e.core.val = e.vlist.getLast hne →
        (enumWatch_increment e agent 1).1.core.val = e.vlist.head hne) ∧
      (e.wrap = true → e.core.val = e.vlist.head hne →
        (enumWatch_increment e agent (-1)).1.core.val = e.vlist.getLast hne) ∧
      (e.wrap = false → e.clamp = false → e.core.val = e.vlist.getLast hne →
        enumWatch_increment e agent 1 = (e, [], .error .valueError)) ∧
      (e.wrap = false → e.clamp = false → e.core.val = e.vlist.head hne →
        enumWatch_increment e agent (-1) = (e, [], .error .valueError)) := by
  intro V A C _ _ e agent hne hnd
  have hlen : 0 < e.vlist.length := List.length_pos.mpr hne
  have hgiLast : e.core.val = e.vlist.getLast hne →
      enumWatch_getIndex e = .ok (e.vlist.length - 1) := by
    intro hlast
    have hmem : e.core.val ∈ e.vlist := by
      rw [hlast]; exact List.getLast_mem hne
    have hidx : e.vlist.indexOf e.core.val = e.vlist.length - 1 := by
      rw [hlast]; exact nodup_indexOf_getLast e.vlist hne hnd
    simp [enumWatch_getIndex, hmem, hidx]
  have hgiHead : e.core.val = e.vlist.head hne → enumWatch_getIndex e = .ok 0 := by
    intro hhead
    have hmem : e.core.val ∈ e.vlist := by
      rw [hhead]; exact List.head_mem hne
    unfold enumWatch_getIndex
    rw [if_pos hmem, hhead, indexOf_head e.vlist hne]
  refine ⟨?_, ?_, ?_, ?_⟩
  · intro hwrap hlast
    simp only [enumWatch_increment, hgiLast hlast, hwrap]
    split
    · rename_i hc
      exfalso
      omega
    · rw [List.head?_eq_head hne]
      exact (enumWatch_setValue_val e (e.vlist.head hne) agent (List.head_mem hne)).1
  · intro hwrap hhead
    simp only [enumWatch_increment, hgiHead hhead, hwrap]
    split
    · rename_i hc
      exfalso
      omega
    · rw [List.getLast?_eq_getLast e.vlist hne]
      exact (enumWatch_setValue_val e (e.vlist.getLast hne) agent (List.getLast_mem hne)).1
  · intro hwrap hclamp hlast
    simp only [enumWatch_increment, hgiLast hlast, hwrap, hclamp]
    split
    · rename_i hc
      exfalso
      omega
    · rfl
  · intro hwrap hclamp hhead
    simp only [enumWatch_increment, hgiHead hhead, hwrap, hclamp]
    split
    · rename_i hc
      exfalso
      omega
    · rfl

/-- Witness for C5 on the enum list `[1, 2, 3]`: wrapping forward from `3`
reaches `1` and backward from `1` reaches `3`; without wrap or clamp,
stepping forward from `3` (or backward from `1`) raises `ValueError` and
changes nothing. -/
theorem C5_enumWatch_increment_wrap_witness :
    (enumWatch_increment
        (⟨[1, 2, 3], true, false, ⟨3, none, 20, 0⟩⟩ : EnumWatch Int Nat Nat) 0 1).1.core.val
      = 1 ∧
    (enumWatch_increment
        (⟨[1, 2, 3], true, false, ⟨1, none, 20, 0⟩⟩ : EnumWatch Int Nat Nat) 0 (-1)).1.core.val
      = 3 ∧
    enumWatch_increment
        (⟨[1, 2, 3], false, false, ⟨3, none, 20, 0⟩⟩ : EnumWatch Int Nat Nat) 0 1
      = (⟨[1, 2, 3], false, false, ⟨3, none, 20, 0⟩⟩, [], .error .valueError) ∧
    enumWatch_increment
        (⟨[1, 2, 3], false, false, ⟨1, none, 20, 0⟩⟩ : EnumWatch Int Nat Nat) 0 (-1)
      = (⟨[1, 2, 3], false, false, ⟨1, none, 20, 0⟩⟩, [], .error .valueError) :=
  ⟨(C5_enumWatch_increment_wrap Int Nat Nat ⟨[1, 2, 3], true, false, ⟨3, none, 20, 0⟩⟩ 0
      (by decide) (by decide)).1 rfl (by decide),
   (C5_enumWatch_increment_wrap Int Nat Nat ⟨[1, 2, 3], true, false, ⟨1, none, 20, 0⟩⟩ 0
      (by decide) (by decide)).2.1 rfl (by decide),
   (C5_enumWatch_increment_wrap Int Nat Nat ⟨[1, 2, 3], false, false, ⟨3, none, 20, 0⟩⟩ 0
      (by decide) (by decide)).2.2.1 rfl rfl (by decide),
   (C5_enumWatch_increment_wrap Int Nat Nat ⟨[1, 2, 3], false, false, ⟨1, none, 20, 0⟩⟩ 0
      (by decide) (by decide)).2.2.2 rfl rfl (by decide)⟩

/-- C6: path lookup on a `treeob`: `n['a/b']` resolves to the same node as
`n['a']['b']`; within a multi-component path a `..` component moves to the
parent, a leading empty component restarts navigation at the root (`app`)
node, and a component naming no child raises `KeyError`. -/
theorem C6_getItem_paths :
    ∀ (root : Tree) (selfp : List String) (t ta : Tree) (a b nm : String),
      nodeAt root selfp = some t →
      dget? t.children a = some ta →
      a ≠ "" → a ≠ ".." → b ≠ "" → b ≠ ".." →
      pySplit '/' nm = [a, b] →
      pySplit '/' a = [a] → pySplit '/' b = [b] →
      ((∀ tb, dget? ta.children b = some tb →
        getItem root selfp nm = .ok (some (selfp ++ [a] ++ [b])) ∧
        getItem root selfp a = .ok (some (selfp ++ [a])) ∧
        getItem root (selfp ++ [a]) b = .ok (some (selfp ++ [a] ++ [b]))) ∧
      (dget? ta.children b = none →
        getItem root selfp nm = .error .keyError) ∧
      (∀ rest, nav root (some (selfp ++ [a])) (".." :: rest) = nav root (some selfp) rest) ∧
      (∀ rest, rest ≠ [] → ∀ nm2 : String, pySplit '/' nm2 = "" :: rest →
        getItem root selfp nm2 = nav root (some []) rest)) := by
  intro root selfp t ta a b nm hsel hta ha1 ha2 hb1 hb2 hsplit hsa hsb
  have hta' : nodeAt root (selfp ++ [a]) = some ta :=
    nodeAt_append_child root selfp t a ta hsel hta
  refine ⟨?_, ?_, ?_, ?_⟩
  · intro tb htb
    refine ⟨?_, ?_, ?_⟩
    · simp only [getItem, hsplit]
      rw [if_neg (by simp : ¬ ([a, b].length = 1))]
      simp only [nav, if_neg ha1, if_neg ha2, if_neg hb1, if_neg hb2, hsel, hta, hta', htb]
    · simp only [getItem, hsa]
      rw [if_pos (by simp : [a].length = 1)]
      simp only [hsel, hta]
    · simp only [getItem, hsb]
      rw [if_pos (by simp : [b].length = 1)]
      simp only [hta', htb]
  · intro hnone
    simp only [getItem, hsplit]
    rw [if_neg (by simp : ¬ ([a, b].length = 1))]
    simp only [nav, if_neg ha1, if_neg ha2, if_neg hb1, if_neg hb2, hsel, hta, hta', hnone]
  · intro rest
    cases hsl : selfp ++ [a] with
    | nil => simp at hsl
    | cons x xs =>
      have hdl : (x :: xs).dropLast = selfp := by
        rw [← hsl]
        exact List.dropLast_concat
      simp only [nav, if_neg (show ¬ (".." : String) = "" by simp), if_pos rfl, if_true, hdl]
  · intro rest hrest nm2 hsplit2
    simp only [getItem, hsplit2]
    rw [if_neg (by simp [hrest] : ¬ ("" :: rest).length = 1)]
    simp only [nav, if_pos rfl, if_true]

/-- Witness for C6 on the tree `app → a → b`: `['a/b']` from the root equals
`['a']` then `['b']`, `['a/c']` raises `KeyError`, `..` from node `a` is
back at the root, and the path `/a` restarts at the root. -/
theorem C6_getItem_paths_witness :
    (getItem (Tree.node "app" [("a", Tree.node "a" [("b", Tree.node "b" [])])]) [] "a/b"
        = .ok (some ([] ++ ["a"] ++ ["b"])) ∧
      getItem (Tree.node "app" [("a", Tree.node "a" [("b", Tree.node "b" [])])]) [] "a"
        = .ok (some ([] ++ ["a"])) ∧
      getItem (Tree.node "app" [("a", Tree.node "a" [("b", Tree.node "b" [])])])
          ([] ++ ["a"]) "b" = .ok (some ([] ++ ["a"] ++ ["b"]))) ∧
    getItem (Tree.node "app" [("a", Tree.node "a" [("b", Tree.node "b" [])])]) [] "a/c"
      = .error .keyError ∧
    nav (Tree.node "app" [("a", Tree.node "a" [("b", Tree.node "b" [])])])
        (some ([] ++ ["a"])) [".."]
      = nav (Tree.node "app" [("a", Tree.node "a" [("b", Tree.node "b" [])])]) (some []) [] ∧
    getItem (Tree.node "app" [("a", Tree.node "a" [("b", Tree.node "b" [])])]) [] "/a"
      = nav (Tree.node "app" [("a", Tree.node "a" [("b", Tree.node "b" [])])]) (some []) ["a"] :=
  ⟨(C6_getItem_paths (Tree.node "app" [("a", Tree.node "a" [("b", Tree.node "b" [])])]) []
      (Tree.node "app" [("a", Tree.node "a" [("b", Tree.node "b" [])])])
      (Tree.node "a" [("b", Tree.node "b" [])]) "a" "b" "a/b"
      rfl rfl (by decide) (by decide) (by decide) (by decide) rfl rfl rfl).1
      (Tree.node "b" []) rfl,
   (C6_getItem_paths (Tree.node "app" [("a", Tree.node "a" [("b", Tree.node "b" [])])]) []
      (Tree.node "app" [("a", Tree.node "a" [("b", Tree.node "b" [])])])
      (Tree.node "a" [("b", Tree.node "b" [])]) "a" "c" "a/c"
      rfl rfl (by decide) (by decide) (by decide) (by decide) rfl rfl rfl).2.1 rfl,
   (C6_getItem_paths (Tree.node "app" [("a", Tree.node "a" [("b", Tree.node "b" [])])]) []
      (Tree.node "app" [("a", Tree.node "a" [("b", Tree.node "b" [])])])
      (Tree.node "a" [("b", Tree.node "b" [])]) "a" "b" "a/b"
      rfl rfl (by decide) (by decide) (by decide) (by decide) rfl rfl rfl).2.2.1 [],
   (C6_getItem_paths (Tree.node "app" [("a", Tree.node "a" [("b", Tree.node "b" [])])]) []
      (Tree.node "app" [("a", Tree.node "a" [("b", Tree.node "b" [])])])
      (Tree.node "a" [("b", Tree.node "b" [])]) "a" "b" "a/b"
      rfl rfl (by decide) (by decide) (by decide) (by decide) rfl rfl rfl).2.2.2
      ["a"] (by decide) "/a" rfl⟩

/-- C10: when `setValue` raises — `RuntimeError` for an unknown agent or
`ValueError` from `validValue` in `pvars.baseVar`, or any `validValue`
exception in `watchables.watchable` — the stored value (indeed the whole
state) is unchanged and no observer callback is invoked. -/
theorem C10_setValue_error_no_effect :
    (∀ (V A C : Type) [DecidableEq V] [DecidableEq A] (agents : List A)
        (vv : V → A → Except PyErr V) (b : BaseVar V A C) (value : V) (agent : A) (e : PyErr),
      (baseVar_setValue agents vv b value agent).2.2 = .error e →
        (baseVar_setValue agents vv b value agent).1 = b ∧
        (baseVar_setValue agents vv b value agent).2.1 = []) ∧
    (∀ (V A C : Type) [DecidableEq V] [DecidableEq A]
        (vv : V → A → Except PyErr V) (w : Watchable V A C) (value : SVIn V) (agent : A)
        (e : PyErr),
      (watchable_setValue vv w value agent).2.2 = .error e →
        (watchable_setValue vv w value agent).1 = w ∧
        (watchable_setValue vv w value agent).2.1 = []) := by
  constructor
  · intro V A C _ _ agents vv b value agent e herr
    by_cases hag : agent ∈ agents
    · cases hvv : vv value agent with
      | error e' => simp [baseVar_setValue, hag, hvv]
      | ok nv =>
        by_cases heq : nv = b.lvvalue <;>
          simp [baseVar_setValue, hag, hvv, heq] at herr ⊢
    · simp [baseVar_setValue, hag]
  · intro V A C _ _ vv w value agent e herr
    cases value with
    | loglvl l => simp [watchable_setValue] at herr
    | flags f => simp [watchable_setValue] at herr
    | value v =>
      cases hvv : vv v agent with
      | error e' => simp [watchable_setValue, hvv]
      | ok nv =>
        by_cases heq : nv = w.val <;>
          simp [watchable_setValue, hvv, heq] at herr ⊢

/-- Witness for C10: a rejected value and an unknown agent on a concrete
`baseVar`, and a rejected value on a concrete `watchable`, each leave the
state untouched with no callbacks. -/
theorem C10_setValue_error_no_effect_witness :
    ((baseVar_setValue [0] (fun (_ : Int) (_ : Nat) => Except.error PyErr.valueError)
        (⟨7, [(0, [4])]⟩ : BaseVar Int Nat Nat) 5 0).1 = ⟨7, [(0, [4])]⟩ ∧
      (baseVar_setValue [0] (fun (_ : Int) (_ : Nat) => Except.error PyErr.valueError)
        (⟨7, [(0, [4])]⟩ : BaseVar Int Nat Nat) 5 0).2.1 = []) ∧
    ((watchable_setValue (fun (_ : Int) (_ : Nat) => Except.error PyErr.valueError)
        (⟨7, some [(0, [4])], 20, 0⟩ : Watchable Int Nat Nat) (.value 5) 0).1
        = ⟨7, some [(0, [4])], 20, 0⟩ ∧
      (watchable_setValue (fun (_ : Int) (_ : Nat) => Except.error PyErr.valueError)
        (⟨7, some [(0, [4])], 20, 0⟩ : Watchable Int Nat Nat) (.value 5) 0).2.1 = []) :=
  ⟨C10_setValue_error_no_effect.1 Int Nat Nat [0]
      (fun _ _ => Except.error PyErr.valueError) ⟨7, [(0, [4])]⟩ 5 0 PyErr.valueError rfl,
   C10_setValue_error_no_effect.2 Int Nat Nat
      (fun _ _ => Except.error PyErr.valueError) ⟨7, some [(0, [4])], 20, 0⟩ (.value 5) 0
      PyErr.valueError rfl⟩

theorem dinsert_fresh {α β : Type} [DecidableEq α] (d : PyDict α β) (k : α) (v : β)
    (h : k ∉ dkeys d) : dinsert d k v = d ++ [(k, v)] := by
  induction d with
  | nil => rfl
  | cons hd tl ih =>
    obtain ⟨k0, v0⟩ := hd
    simp only [dkeys, List.map_cons, List.mem_cons, not_or] at h
    have hne : ¬ k0 = k := fun he => h.1 he.symm
    simp [dinsert, hne, ih h.2]

theorem ip4list_sectadd_ip4 (info : IfaceInfo) (v : SectVal) :
    ip4list (sectadd info "IP4" v) = ip4list info ++ [v] := by
  unfold sectadd ip4list
  cases hg : dget? info "IP4" with
  | none => simp [hg, dget_dinsert]
  | some l => simp [hg, dget_dinsert]

theorem ip4list_sectadd_other (info : IfaceInfo) (key : String) (v : SectVal)
    (h : key ≠ "IP4") : ip4list (sectadd info key v) = ip4list info := by
  unfold sectadd ip4list
  cases hg : dget? info key with
  | none => rw [dget_dinsert_ne _ _ _ _ h]
  | some l => rw [dget_dinsert_ne _ _ _ _ h]

theorem kvpairs_peer : ∀ (rest : List (List Char)) (d : PyDict String String) (s : String),
    "peer" ∉ kvKeys rest → dget? d "peer" = some s → dget? (kvpairs rest d) "peer" = some s
  | [], _, _, _, hd => hd
  | [_], _, _, _, hd => hd
  | a :: b :: rest, d, s, hk, hd => by
    have hk1 : ("peer" : String) ∉ [String.mk a] := by
      intro hmem
      exact hk (by simp at hmem; simp [kvKeys, hmem])
    have hk2 : ("peer" : String) ∉ kvKeys rest := by
      intro hmem
      exact hk (by simp [kvKeys, hmem])
    simp only [kvpairs]
    refine kvpairs_peer rest _ s hk2 ?_
    rw [dget_dinsert_ne]
    · exact hd
    · intro he
      exact hk1 (by simp [he])

theorem ip4parse_peer (p0 p1 : List Char) (rest : List (List Char))
    (hk : "peer" ∉ kvKeys rest) :
    ∃ d, ip4parse (p0 :: p1 :: rest) = .ok d ∧ dget? d "peer" = some (String.mk p1) := by
  refine ⟨kvpairs rest [("peer", String.mk p1)], rfl, ?_⟩
  exact kvpairs_peer rest _ _ hk (by simp [dget?])

theorem parseIfLine_ip4list (l : List Char) (info info' : IfaceInfo)
    (h : parseIfLine l info = .ok info') :
    ip4list info' = ip4list info ++ (inetSect? l).toList := by
  unfold parseIfLine at h
  unfold inetSect?
  cases hp : lineParts l with
  | nil =>
    rw [hp] at h
    exact absurd h (by simp)
  | cons p0 prest =>
    rw [hp] at h
    dsimp only at h ⊢
    by_cases h0 : p0 = "inet".data
    · rw [if_pos h0] at h ⊢
      cases hip : ip4parse (p0 :: prest) with
      | error e =>
        rw [hip] at h
        exact absurd h (by simp)
      | ok d =>
        rw [hip] at h
        cases h
        simp [ip4list_sectadd_ip4]
    · rw [if_neg h0] at h ⊢
      by_cases h6 : p0 = "inet6".data
      · rw [if_pos h6] at h
        cases h
        simp
      · rw [if_neg h6] at h
        by_cases he : p0 = "ether".data
        · rw [if_pos he] at h
          cases prest with
          | nil => exact absurd h (by simp)
          | cons p1 pr =>
            cases h
            simp [ip4list_sectadd_other _ _ _ (by decide : ("mac_addr" : String) ≠ "IP4")]
        · rw [if_neg he] at h
          cases h
          simp

theorem blockInfo_ip4list : ∀ (attrs : List (List Char)) (info info' : IfaceInfo),
    blockInfo info attrs = .ok info' →
    ip4list info' = ip4list info ++ attrs.filterMap inetSect?
  | [], info, info', h => by
    unfold blockInfo at h
    cases h
    simp
  | l :: rest, info, info', h => by
    unfold blockInfo at h
    cases hp : parseIfLine l info with
    | error e =>
      rw [hp] at h
      exact absurd h (by simp)
    | ok info1 =>
      rw [hp] at h
      have ih := blockInfo_ip4list rest info1 info' h
      rw [ih, parseIfLine_ip4list l info info1 hp]
      simp only [List.filterMap_cons]
      cases inetSect? l <;> simp

theorem sectPeer_inetSect (l : List Char)
    (hk : "peer" ∉ kvKeys ((lineParts l).drop 2)) :
    (inetSect? l).toList.flatMap sectPeer =
      (match inetPeerTok l with
       | some p => if p ≠ "127.0.0.1" then [p] else []
       | none => []) := by
  unfold inetSect? inetPeerTok
  cases hp : lineParts l with
  | nil => simp
  | cons p0 prest =>
    rw [hp] at hk
    by_cases h0 : p0 = "inet".data
    · cases prest with
      | nil => simp [h0, ip4parse]
      | cons p1 pr =>
        have hk' : "peer" ∉ kvKeys pr := hk
        obtain ⟨d, hd, hpeer⟩ := ip4parse_peer p0 p1 pr hk'
        rw [h0] at hd
        simp [h0, hd, sectPeer, hpeer]
    · cases prest <;> simp [h0]

theorem peers_line_fold : ∀ (attrs : List (List Char)),
    (∀ l ∈ attrs, "peer" ∉ kvKeys ((lineParts l).drop 2)) →
    (attrs.filterMap inetSect?).flatMap sectPeer
      = (attrs.filterMap inetPeerTok).filter (fun p => p ≠ "127.0.0.1") := by
  intro attrs hk
  induction attrs with
  | nil => rfl
  | cons l rest ih =>
    have hline := sectPeer_inetSect l (hk l (by simp))
    have ihr := ih (fun x hx => hk x (by simp [hx]))
    simp only [List.filterMap_cons]
    cases his : inetSect? l with
    | none =>
      rw [his] at hline
      simp only [Option.toList_none, List.flatMap_nil] at hline
      cases hit : inetPeerTok l with
      | none => simp [his, hit, ihr]
      | some p =>
        rw [hit] at hline
        simp only [] at hline
        by_cases hp : p ≠ "127.0.0.1"
        · rw [if_pos hp] at hline
          exact absurd hline (by simp)
        · simp only [List.filter_cons]
          rw [if_neg (by simpa using hp)]
          exact ihr
    | some e =>
      rw [his] at hline
      cases hit : inetPeerTok l with
      | none =>
        rw [hit] at hline
        simp only [Option.toList_some] at hline
        simp [List.flatMap_cons] at hline
        simp [List.flatMap_cons, hline, ihr]
      | some p =>
        rw [hit] at hline
        simp only [Option.toList_some, List.flatMap_cons, List.flatMap_nil,
          List.append_nil] at hline
        simp only [List.flatMap_cons, List.filter_cons]
        by_cases hp : p ≠ "127.0.0.1"
        · rw [if_pos (by simpa using hp)]
          rw [hline, if_pos hp, ihr]
          rfl
        · rw [if_neg (by simpa using hp)]
          rw [hline, if_neg hp, ihr]
          rfl

theorem blockInfo_infoPeers (attrs : List (List Char)) (info' : IfaceInfo)
    (h : blockInfo [] attrs = .ok info')
    (hk : ∀ l ∈ attrs, "peer" ∉ kvKeys ((lineParts l).drop 2)) :
    infoPeers info' = (attrs.filterMap inetPeerTok).filter (fun p => p ≠ "127.0.0.1") := by
  have h1 : ip4list info' = attrs.filterMap inetSect? := by
    have h2 := blockInfo_ip4list attrs [] info' h
    rw [h2]
    simp [ip4list, dget?]
  have h3 : infoPeers info' = (ip4list info').flatMap sectPeer := by
    unfold infoPeers ip4list
    cases dget? info' "IP4" <;> simp
  rw [h3, h1, peers_line_fold attrs hk]

theorem specBlocksInfo_peers : ∀ (blocks : List (String × List (List Char)))
    (bs : List (String × IfaceInfo)),
    specBlocksInfo blocks = .ok bs →
    (∀ b ∈ blocks, ∀ l ∈ b.2, "peer" ∉ kvKeys ((lineParts l).drop 2)) →
    (dvalues bs).flatMap infoPeers
      = (blocks.flatMap (fun b => b.2.filterMap inetPeerTok)).filter
          (fun p => p ≠ "127.0.0.1")
  | [], bs, h, _ => by
    unfold specBlocksInfo at h
    cases h
    rfl
  | b :: blocks, bs, h, hk => by
    unfold specBlocksInfo at h
    cases hbi : blockInfo [] b.2 with
    | error e =>
      rw [hbi] at h
      exact absurd h (by simp)
    | ok i =>
      rw [hbi] at h
      cases hrest : specBlocksInfo blocks with
      | error e =>
        rw [hrest] at h
        exact absurd h (by simp)
      | ok tl =>
        rw [hrest] at h
        cases h
        have ih := specBlocksInfo_peers blocks tl hrest (fun x hx => hk x (by simp [hx]))
        simp only [dvalues, List.map_cons, List.flatMap_cons, List.filter_append]
        rw [blockInfo_infoPeers b.2 i hbi (hk b (by simp))]
        rw [← ih]
        rfl

theorem specBlocksFuel_adequate : ∀ (f1 : Nat) (lines : List (List Char)) (f2 : Nat),
    lines.length ≤ f1 → lines.length ≤ f2 →
    specBlocksFuel f1 lines = specBlocksFuel f2 lines := by
  intro f1
  induction f1 with
  | zero =>
    intro lines f2 h1 h2
    have hnil : lines = [] := List.length_eq_zero.mp (Nat.le_zero.mp h1)
    subst hnil
    cases f2 <;> rfl
  | succ n ih =>
    intro lines f2 h1 h2
    cases lines with
    | nil => cases f2 <;> rfl
    | cons aline rest =>
      cases f2 with
      | zero => simp at h2
      | succ m =>
        cases aline with
        | nil => rfl
        | cons c cs =>
          simp only [specBlocksFuel]
          by_cases hsp : c = ' ' ∨ c = '\n'
          · rw [if_pos hsp, if_pos hsp]
            refine ih rest m ?_ ?_
            · simp only [List.length_cons] at h1
              omega
            · simp only [List.length_cons] at h2
              omega
          · rw [if_neg hsp, if_neg hsp]
            have hd : (rest.dropWhile startsSpace).length ≤ rest.length :=
              (List.dropWhile_sublist startsSpace).length_le
            rw [ih (rest.dropWhile startsSpace) m
              (by simp only [List.length_cons] at h1; omega)
              (by simp only [List.length_cons] at h2; omega)]

theorem specBlocks_skip (c : Char) (cs : List Char) (rest : List (List Char))
    (h : c = ' ' ∨ c = '\n') : specBlocks ((c :: cs) :: rest) = specBlocks rest := by
  unfold specBlocks
  simp only [List.length_cons, specBlocksFuel, if_pos h]

theorem specBlocks_block (c : Char) (cs : List Char) (rest : List (List Char))
    (h : ¬ (c = ' ' ∨ c = '\n')) :
    specBlocks ((c :: cs) :: rest)
      = (String.mk ((c :: cs).takeWhile (fun ch => ch ≠ ':')), rest.takeWhile startsSpace)
          :: specBlocks (rest.dropWhile startsSpace) := by
  unfold specBlocks
  simp only [List.length_cons, specBlocksFuel, if_neg h]
  rw [specBlocksFuel_adequate rest.length (rest.dropWhile startsSpace)
    (rest.dropWhile startsSpace).length (List.dropWhile_sublist startsSpace).length_le le_rfl]

theorem netinfGo_inner_eq : ∀ (lines : List (List Char)) (iname : String) (info : IfaceInfo)
    (acc : PyDict String IfaceInfo),
    netinfGo lines (.inner iname info) acc =
      (match blockInfo info (lines.takeWhile startsSpace) with
       | .error e => .error e
       | .ok info' =>
         match lines.dropWhile startsSpace with
         | [] => .error .indexError
         | l :: rest =>
           match l with
           | [] => .error .indexError
           | _ :: _ => netinfGo (l :: rest) .top (dinsert acc iname info'))
  | [], iname, info, acc => by
    simp [netinfGo, blockInfo]
  | aline :: rest, iname, info, acc => by
    cases aline with
    | nil =>
      simp [netinfGo, blockInfo, startsSpace]
    | cons c cs =>
      by_cases hc : c = ' '
      · subst hc
        have hss : startsSpace (' ' :: cs) = true := by simp [startsSpace]
        cases hp : parseIfLine (' ' :: cs) info with
        | error e =>
          simp [netinfGo, hss, hp, blockInfo, List.takeWhile_cons, List.dropWhile_cons]
        | ok info1 =>
          have ih := netinfGo_inner_eq rest iname info1 acc
          simp [netinfGo, hss, hp, blockInfo, List.takeWhile_cons, List.dropWhile_cons, ih]
      · have hss : startsSpace (c :: cs) = false := by simp [startsSpace, hc]
        by_cases hn : c = '\n'
        · subst hn
          simp [netinfGo, hc, hss, blockInfo, List.dropWhile_cons, List.takeWhile_cons]
        · cases hh : headerName (c :: cs) with
          | error e =>
            simp [netinfGo, hc, hss, hn, hh, blockInfo, List.dropWhile_cons,
              List.takeWhile_cons]
          | ok iname' =>
            simp [netinfGo, hc, hss, hn, hh, blockInfo, List.dropWhile_cons,
              List.takeWhile_cons]

theorem netinfGo_top_spec : ∀ (N : Nat) (lines : List (List Char)), lines.length ≤ N →
    ∀ (acc r : PyDict String IfaceInfo),
    netinfGo lines .top acc = .ok r →
    ((specBlocks lines).map Prod.fst).Nodup →
    (∀ m ∈ (specBlocks lines).map Prod.fst, m ∉ dkeys acc) →
    ∃ bs, specBlocksInfo (specBlocks lines) = .ok bs ∧ r = acc ++ bs := by
  intro N
  induction N with
  | zero =>
    intro lines hlen acc r h hnd hfresh
    have hnil : lines = [] := List.length_eq_zero.mp (Nat.le_zero.mp hlen)
    subst hnil
    simp only [netinfGo, Except.ok.injEq] at h
    exact ⟨[], rfl, by simp [← h]⟩
  | succ n ihN =>
    intro lines hlen acc r h hnd hfresh
    cases lines with
    | nil =>
      simp only [netinfGo, Except.ok.injEq] at h
      exact ⟨[], rfl, by simp [← h]⟩
    | cons aline rest =>
      have hrlen : rest.length ≤ n := by
        simp only [List.length_cons] at hlen
        omega
      cases aline with
      | nil =>
        simp only [netinfGo, Except.ok.injEq] at h
        exact ⟨[], rfl, by simp [← h]⟩
      | cons c cs =>
        by_cases hsp : c = ' ' ∨ c = '\n'
        · have hgo : netinfGo ((c :: cs) :: rest) .top acc = netinfGo rest .top acc := by
            simp only [netinfGo, if_pos hsp]
          rw [hgo] at h
          rw [specBlocks_skip c cs rest hsp] at hnd hfresh ⊢
          exact ihN rest hrlen acc r h hnd hfresh
        · have hgo : netinfGo ((c :: cs) :: rest) .top acc =
              (match headerName (c :: cs) with
               | .error e => .error e
               | .ok iname => netinfGo rest (.inner iname []) acc) := by
            simp only [netinfGo, if_neg hsp]
          rw [hgo] at h
          cases hh : headerName (c :: cs) with
          | error e =>
            rw [hh] at h
            exact absurd h (by simp)
          | ok iname =>
            rw [hh] at h
            dsimp only at h
            rw [netinfGo_inner_eq] at h
            cases hbi : blockInfo [] (rest.takeWhile startsSpace) with
            | error e =>
              rw [hbi] at h
              exact absurd h (by simp)
            | ok info' =>
              rw [hbi] at h
              have hname : iname = String.mk ((c :: cs).takeWhile (fun ch => ch ≠ ':')) := by
                unfold headerName at hh
                by_cases hmem : ':' ∈ c :: cs
                · rw [if_pos hmem] at hh
                  cases hh
                  rfl
                · rw [if_neg hmem] at hh
                  cases hh
              have hsb : specBlocks ((c :: cs) :: rest)
                  = (iname, rest.takeWhile startsSpace)
                      :: specBlocks (rest.dropWhile startsSpace) := by
                rw [hname]
                exact specBlocks_block c cs rest hsp
              rw [hsb] at hnd hfresh
              simp only [List.map_cons, List.nodup_cons] at hnd
              simp only [List.map_cons, List.mem_cons] at hfresh
              have hifresh : iname ∉ dkeys acc := hfresh iname (Or.inl rfl)
              cases hdw : rest.dropWhile startsSpace with
              | nil =>
                rw [hdw] at h
                exact absurd h (by simp)
              | cons l rest' =>
                rw [hdw] at h
                cases l with
                | nil => exact absurd h (by simp)
                | cons c2 cs2 =>
                  dsimp only at h
                  rw [dinsert_fresh acc iname info' hifresh] at h
                  have hlen' : (rest.dropWhile startsSpace).length ≤ n := by
                    have h1 : (rest.dropWhile startsSpace).length ≤ rest.length :=
                      (List.dropWhile_sublist startsSpace).length_le
                    omega
                  have hfresh' : ∀ m ∈ (specBlocks (rest.dropWhile startsSpace)).map Prod.fst,
                      m ∉ dkeys (acc ++ [(iname, info')]) := by
                    intro m hm
                    simp only [dkeys, List.map_append, List.map_cons, List.map_nil,
                      List.mem_append, List.mem_cons, List.not_mem_nil, or_false, not_or]
                    exact ⟨hfresh m (Or.inr hm), fun he => hnd.1 (he ▸ hm)⟩
                  obtain ⟨bs', hbs', hr'⟩ := ihN (rest.dropWhile startsSpace) hlen'
                      (acc ++ [(iname, info')]) r (by rw [hdw]; exact h) hnd.2 hfresh'
                  refine ⟨(iname, info') :: bs', ?_, ?_⟩
                  · rw [hsb]
                    simp [specBlocksInfo, hbi, hbs']
                  · rw [hr']
                    simp

/-- C8: for an ifconfig output that `netinf` parses successfully (with
distinct interface names and no stray `peer` key token on an `inet` line),
`allIP4` returns exactly the IPv4 host addresses — the second token of each
`inet` line, the dict's `'peer'` entry — of every interface block in
interface order, excluding `127.0.0.1`; a block with no `inet` line
contributes nothing. -/
theorem C8_allIP4_inet_peers :
    ∀ (lines : List (List Char)),
      exceptOk (netinf lines) = true →
      ((specBlocks lines).map Prod.fst).Nodup →
      (∀ b ∈ specBlocks lines, ∀ l ∈ b.2, "peer" ∉ kvKeys ((lineParts l).drop 2)) →
      allIP4 lines = .ok (specAllIP4 lines) := by
  intro lines hok hnd hk
  cases hn : netinf lines with
  | error e =>
    rw [hn] at hok
    simp [exceptOk] at hok
  | ok r =>
    obtain ⟨bs, hbs, hr⟩ := netinfGo_top_spec lines.length lines le_rfl [] r hn hnd
      (by intro m _; simp [dkeys])
    have hval : (dvalues r).flatMap infoPeers = specAllIP4 lines := by
      rw [hr]
      simp only [List.nil_append]
      rw [specBlocksInfo_peers (specBlocks lines) bs hbs hk]
      rfl
    unfold allIP4
    rw [hn]
    dsimp only
    rw [hval]

/-- Witness for C8 on a concrete two-interface transcript: parsing
succeeds, the hypotheses hold, and `allIP4` returns exactly the single
non-loopback address `192.168.1.5` predicted by the spec-side extraction. -/
theorem C8_allIP4_inet_peers_witness :
    exceptOk (netinf sampleIfconfig) = true ∧
    allIP4 sampleIfconfig = .ok (specAllIP4 sampleIfconfig) ∧
    specAllIP4 sampleIfconfig = ["192.168.1.5"] :=
  ⟨rfl,
   C8_allIP4_inet_peers sampleIfconfig rfl (by decide) (by decide),
   by decide⟩

end PootlesUtils
